import Mathlib

/-!
Shallow embedding of the planet-renderer-c LOD quadtree and chunk streaming
subsystem (packages/planet-renderer-c), over exact rational arithmetic.

C `float` values are modelled as `ℚ`; machine-dependent external library
routines (raymath's `sqrtf`-based `Vector3Distance`, `Vector3Normalize`, and
the raw IEEE-754 bit reinterpretation used by `HashChunkKey`) are taken as
parameters of the development, since their code is not part of the repository.
-/

namespace PlanetRenderer

/-! ## Math model: vectors, boxes, matrices (math_utils.c / raymath) -/

/-- A 3-component vector (raylib `Vector3`), components as exact rationals. -/
structure Vec3 where
  x : ℚ
  y : ℚ
  z : ℚ
  deriving DecidableEq, Repr

/-- Axis-aligned bounding box (`BoundingBox3` in quadtree.c / `Box3` in
math_utils.h): a min and a max corner. -/
structure BoundingBox3 where
  min : Vec3
  max : Vec3
  deriving DecidableEq, Repr

/-- `Box3_GetCenter` (math_utils.c): componentwise `(min + max) * 0.5`.
The `BoundingBoxCenter` helper used by quadtree.c has no implementation under
the repository sources; it is modelled by this same componentwise midpoint,
which is what math_utils.c computes. -/
def Box3_GetCenter (box : BoundingBox3) : Vec3 :=
  ⟨(box.min.x + box.max.x) * (1/2),
   (box.min.y + box.max.y) * (1/2),
   (box.min.z + box.max.z) * (1/2)⟩

/-- `Box3_GetSize` (math_utils.c): componentwise `max - min`.  Also the model
of quadtree.c's `BoundingBoxSize`. -/
def Box3_GetSize (box : BoundingBox3) : Vec3 :=
  ⟨box.max.x - box.min.x, box.max.y - box.min.y, box.max.z - box.min.z⟩

/-- `Vector3_DistanceSquared` (math_utils.c): sum of squared component
differences. -/
def Vector3_DistanceSquared (a b : Vec3) : ℚ :=
  (b.x - a.x) * (b.x - a.x) + (b.y - a.y) * (b.y - a.y) + (b.z - a.z) * (b.z - a.z)

/-- Raylib 4x4 matrix (column-major storage as in raymath). -/
structure Mat4 where
  m0 : ℚ
  m4 : ℚ
  m8 : ℚ
  m12 : ℚ
  m1 : ℚ
  m5 : ℚ
  m9 : ℚ
  m13 : ℚ
  m2 : ℚ
  m6 : ℚ
  m10 : ℚ
  m14 : ℚ
  m3 : ℚ
  m7 : ℚ
  m11 : ℚ
  m15 : ℚ
  deriving DecidableEq, Repr

/-- The identity matrix (raymath `MatrixIdentity`). -/
def Mat4.identity : Mat4 :=
  ⟨1, 0, 0, 0, 0, 1, 0, 0, 0, 0, 1, 0, 0, 0, 0, 1⟩

/-- A translation matrix (raymath `MatrixTranslate`). -/
def MatrixTranslate (x y z : ℚ) : Mat4 :=
  ⟨1, 0, 0, x, 0, 1, 0, y, 0, 0, 1, z, 0, 0, 0, 1⟩

/-- Raymath `Vector3Transform`: affine application of a 4x4 matrix to a
vector (w = 1). -/
def Vector3Transform (v : Vec3) (m : Mat4) : Vec3 :=
  ⟨m.m0 * v.x + m.m4 * v.y + m.m8 * v.z + m.m12,
   m.m1 * v.x + m.m5 * v.y + m.m9 * v.z + m.m13,
   m.m2 * v.x + m.m6 * v.y + m.m10 * v.z + m.m14⟩

/-- Raymath `Vector3Scale`. -/
def Vector3Scale (v : Vec3) (s : ℚ) : Vec3 :=
  ⟨v.x * s, v.y * s, v.z * s⟩

/-- Raymath `Vector3Add`. -/
def Vector3Add (a b : Vec3) : Vec3 :=
  ⟨a.x + b.x, a.y + b.y, a.z + b.z⟩

/-- Raymath `Vector3Distance`, parametrized by the external libm square root
`sqrtq` (the C code computes `sqrtf` of the squared distance). -/
def Vector3Distance (sqrtq : ℚ → ℚ) (a b : Vec3) : ℚ :=
  sqrtq (Vector3_DistanceSquared a b)

end PlanetRenderer

namespace PlanetRenderer

/-! ## Quadtree (quadtree.c): hash IDs, nodes, subdivision -/

/-- One 64-bit DJB2 mixing step of quadtree.c's `HashChunkKey`:
`hash = ((hash << 5) + hash) + v` in C `unsigned long long` arithmetic. -/
def djb2Step (hash v : ℕ) : ℕ :=
  ((hash <<< 5) + hash + v) % 2 ^ 64

/-- `HashChunkKey` (quadtree.c): DJB2 hash of the face id and the raw 32-bit
float representations of `x`, `y`, `size`.  The IEEE-754 bit reinterpretation
(`*(unsigned int*)&x`) is hardware representation, modelled by the parameter
`floatBits`; the C int-to-unsigned conversions are the explicit `% 2^32` /
`% 2^64` reductions. -/
def HashChunkKey (floatBits : ℚ → ℕ) (faceId : ℤ) (x y size : ℚ) : ℕ :=
  let hash : ℕ := 5381
  let hash := djb2Step hash (faceId % (2 ^ 64 : ℤ)).toNat
  let hash := djb2Step hash (floatBits x % 2 ^ 32)
  let hash := djb2Step hash (floatBits y % 2 ^ 32)
  djb2Step hash (floatBits size % 2 ^ 32)

/-- `QuadtreeNode` (quadtree.c): bounds, derived center/size, sphere-projected
center, leaf flag, face id, hashed id, and either no children or exactly the
four children installed by a split.  The C `userData` pointer and the split
callback that touches it are external state not modelled here. -/
inductive QuadtreeNode : Type where
  | mk (bounds : BoundingBox3) (center size sphereCenter : Vec3) (isLeaf : Bool)
       (faceId : ℤ) (id : ℕ)
       (children : Option (QuadtreeNode × QuadtreeNode × QuadtreeNode × QuadtreeNode))

def QuadtreeNode.bounds : QuadtreeNode → BoundingBox3
  | .mk b _ _ _ _ _ _ _ => b

def QuadtreeNode.center : QuadtreeNode → Vec3
  | .mk _ c _ _ _ _ _ _ => c

def QuadtreeNode.size : QuadtreeNode → Vec3
  | .mk _ _ s _ _ _ _ _ => s

def QuadtreeNode.sphereCenter : QuadtreeNode → Vec3
  | .mk _ _ _ sc _ _ _ _ => sc

def QuadtreeNode.isLeaf : QuadtreeNode → Bool
  | .mk _ _ _ _ l _ _ _ => l

def QuadtreeNode.faceId : QuadtreeNode → ℤ
  | .mk _ _ _ _ _ f _ _ => f

def QuadtreeNode.id : QuadtreeNode → ℕ
  | .mk _ _ _ _ _ _ i _ => i

def QuadtreeNode.children :
    QuadtreeNode → Option (QuadtreeNode × QuadtreeNode × QuadtreeNode × QuadtreeNode)
  | .mk _ _ _ _ _ _ _ c => c

/-- `CreateNode` (quadtree.c): derives center and size from the bounds,
hashes the id from `(faceId, bounds.min.x, bounds.min.y, size.x)`, and
projects the center onto the sphere (`Vector3Normalize` is the external
raymath routine, modelled by the parameter `vnormalize`).  The fresh node is
a leaf with no children. -/
def CreateNode (floatBits : ℚ → ℕ) (vnormalize : Vec3 → Vec3) (bounds : BoundingBox3)
    (localToWorld : Mat4) (planetRadius : ℚ) (planetOrigin : Vec3) (faceId : ℤ) :
    QuadtreeNode :=
  let center := Box3_GetCenter bounds
  let size := Box3_GetSize bounds
  let id := HashChunkKey floatBits faceId bounds.min.x bounds.min.y size.x
  let worldPos := Vector3Transform center localToWorld
  let normalized := vnormalize worldPos
  let scaled := Vector3Scale normalized planetRadius
  let sphereCenter := Vector3Add scaled planetOrigin
  .mk bounds center size sphereCenter true faceId id none

/-- `Quadtree` (quadtree.c): per-face tree owning its root, transform, size,
minimum node size and comparator value. -/
structure Quadtree where
  size : ℚ
  minNodeSize : ℚ
  comparatorValue : ℚ
  origin : Vec3
  localToWorld : Mat4
  faceId : ℤ
  root : QuadtreeNode

/-- `Quadtree_Create` (quadtree.c): stores the parameters unconditionally (no
validation of any of them) and creates a single leaf root spanning
`[-size, size]` in both face-local axes. -/
def Quadtree_Create (floatBits : ℚ → ℕ) (vnormalize : Vec3 → Vec3) (size minNodeSize
    comparatorValue : ℚ) (origin : Vec3) (localToWorld : Mat4) (faceId : ℤ) : Quadtree :=
  let bounds : BoundingBox3 := ⟨⟨-size, -size, 0⟩, ⟨size, size, 0⟩⟩
  { size := size, minNodeSize := minNodeSize, comparatorValue := comparatorValue,
    origin := origin, localToWorld := localToWorld, faceId := faceId,
    root := CreateNode floatBits vnormalize bounds localToWorld size origin faceId }

/-- Install the four split children on a node, clearing its leaf flag
(the mutation performed by the split branch of `InsertRecursive`). -/
def QuadtreeNode.withSplit (n : QuadtreeNode)
    (c : QuadtreeNode × QuadtreeNode × QuadtreeNode × QuadtreeNode) : QuadtreeNode :=
  match n with
  | .mk b ce s sc _ f i _ => .mk b ce s sc false f i (some c)

/-- Apply `f` to each of the four children (the `for i < 4` recursion loop of
`InsertRecursive`).  A childless non-leaf would dereference NULL in C; that
state is unreachable and modelled as the identity. -/
def QuadtreeNode.mapChildren (f : QuadtreeNode → QuadtreeNode) (n : QuadtreeNode) :
    QuadtreeNode :=
  match n with
  | .mk b ce s sc l fa i none => .mk b ce s sc l fa i none
  | .mk b ce s sc l fa i (some (a, c2, c3, c4)) =>
      .mk b ce s sc l fa i (some (f a, f c2, f c3, f c4))

/-- The split branch of `InsertRecursive` (quadtree.c): partition the node's
rectangle into the four quadrants sharing its midpoint (bottom-left,
bottom-right, top-left, top-right), instantiate the four children with
`CreateNode`, and clear the leaf flag. -/
def QuadtreeNode.splitNode (floatBits : ℚ → ℕ) (vnormalize : Vec3 → Vec3)
    (localToWorld : Mat4) (planetRadius : ℚ) (planetOrigin : Vec3) (node : QuadtreeNode) :
    QuadtreeNode :=
  let center := node.center
  let bmin := node.bounds.min
  let bmax := node.bounds.max
  let b1 : BoundingBox3 := ⟨bmin, center⟩
  let b2 : BoundingBox3 := ⟨⟨center.x, bmin.y, 0⟩, ⟨bmax.x, center.y, 0⟩⟩
  let b3 : BoundingBox3 := ⟨⟨bmin.x, center.y, 0⟩, ⟨center.x, bmax.y, 0⟩⟩
  let b4 : BoundingBox3 := ⟨center, bmax⟩
  node.withSplit
    (CreateNode floatBits vnormalize b1 localToWorld planetRadius planetOrigin node.faceId,
     CreateNode floatBits vnormalize b2 localToWorld planetRadius planetOrigin node.faceId,
     CreateNode floatBits vnormalize b3 localToWorld planetRadius planetOrigin node.faceId,
     CreateNode floatBits vnormalize b4 localToWorld planetRadius planetOrigin node.faceId)

/-- `InsertRecursive` (quadtree.c): if the node's sphere center is closer to
the camera than `size.x * comparatorValue` and `size.x` still exceeds
`minNodeSize`, split a leaf into four equal quadrants and recurse into all
four children.  The C recursion terminates by halving the node size; `fuel`
bounds the recursion depth and is chosen large enough by `Quadtree_Insert`
(when the fuel runs out the node is returned unchanged, which coincides with
the C behaviour whenever `size.x ≤ minNodeSize * 2 ^ fuel`). -/
def InsertRecursive (sqrtq : ℚ → ℚ) (floatBits : ℚ → ℕ) (vnormalize : Vec3 → Vec3)
    (fuel : ℕ) (cameraPos : Vec3) (minNodeSize comparatorValue : ℚ) (localToWorld : Mat4)
    (planetRadius : ℚ) (planetOrigin : Vec3) (node : QuadtreeNode) : QuadtreeNode :=
  match fuel with
  | 0 => node
  | fuel + 1 =>
    let dist := Vector3Distance sqrtq node.sphereCenter cameraPos
    if dist < node.size.x * comparatorValue ∧ minNodeSize < node.size.x then
      let node1 :=
        if node.isLeaf then
          node.splitNode floatBits vnormalize localToWorld planetRadius planetOrigin
        else node
      node1.mapChildren
        (InsertRecursive sqrtq floatBits vnormalize fuel cameraPos minNodeSize
          comparatorValue localToWorld planetRadius planetOrigin)
    else node

/-- Recursion-depth budget for `Quadtree_Insert`, sufficient whenever
`minNodeSize > 0` (see `insertFuel_adequate`). -/
def insertFuel (size minNodeSize : ℚ) : ℕ :=
  size.num.natAbs * minNodeSize.den

/-- `Quadtree_Insert` (quadtree.c): runs `InsertRecursive` on the root with
the tree's stored parameters (`tree->size` is passed as the planet radius). -/
def Quadtree_Insert (sqrtq : ℚ → ℚ) (floatBits : ℚ → ℕ) (vnormalize : Vec3 → Vec3)
    (tree : Quadtree) (cameraPosition : Vec3) : Quadtree :=
  { tree with
    root := InsertRecursive sqrtq floatBits vnormalize
      (insertFuel tree.root.size.x tree.minNodeSize) cameraPosition tree.minNodeSize
      tree.comparatorValue tree.localToWorld tree.size tree.origin tree.root }

/-- `GetLeafNodesRecursive` (quadtree.c): depth-first collection of the nodes
whose `isLeaf` flag is set. -/
def QuadtreeNode.leafNodes : QuadtreeNode → List QuadtreeNode
  | .mk b ce s sc true fa i c => [.mk b ce s sc true fa i c]
  | .mk _ _ _ _ false _ _ none => []
  | .mk _ _ _ _ false _ _ (some (a, c2, c3, c4)) =>
      a.leafNodes ++ c2.leafNodes ++ c3.leafNodes ++ c4.leafNodes

/-- `Quadtree_GetLeafNodes` (quadtree.c). -/
def Quadtree_GetLeafNodes (tree : Quadtree) : List QuadtreeNode :=
  tree.root.leafNodes

end PlanetRenderer

namespace PlanetRenderer

/-! ## Chunk mesh generation (chunk.c) -/

/-- Raylib `Color` (byte components). -/
structure ColorRGBA where
  r : ℕ
  g : ℕ
  b : ℕ
  a : ℕ
  deriving DecidableEq, Repr

/-- Raylib `WHITE`. -/
def WHITE : ColorRGBA := ⟨255, 255, 255, 255⟩

/-- `ChunkProps` (chunk.h).  The height and color generator callbacks are the
caller-supplied external field functions (NULL modelled as `none`); the
opaque `userData` pointer they close over is not modelled separately. -/
structure ChunkProps where
  offset : Vec3
  origin : Vec3
  worldMatrix : Mat4
  width : ℚ
  height : ℚ
  radius : ℚ
  resolution : ℕ
  minCellSize : ℚ
  inverted : Bool
  heightGen : Option (Vec3 → ℚ → ℚ)
  colorGen : Option (Vec3 → ℚ → ColorRGBA)

/-- The output buffers of `GenerateInitialHeights` (chunk.c): the vertex
positions, float colors and up vectors written at indices `0 ≤ idx <
vertexCount`, plus the reported `*outVertexCount`. -/
structure HeightsOut where
  positions : List Vec3
  colors : List (ℚ × ℚ × ℚ × ℚ)
  ups : List Vec3
  vertexCount : ℕ

/-- `GenerateInitialHeights` (chunk.c): iterates `x` and `y` over
`[-1, props.resolution + 2]` (that is `props.resolution + 4` samples per
axis, the interior `(resolution+1)` grid plus a one-sample skirt border on
each side), projects each grid sample onto the sphere, perturbs it by the
height field, and reports `vertexCount = (props.resolution + 4)^2`.
`Vector3Normalize` is the external raymath routine (parameter
`vnormalize`). -/
def GenerateInitialHeights (vnormalize : Vec3 → Vec3) (props : ChunkProps) : HeightsOut :=
  let half := props.width / 2
  let resolution := props.resolution + 4
  let effectiveResolution := props.resolution + 1
  let vertexCount := resolution * resolution
  let coords : List ℤ := (List.range resolution).map (fun i => Int.ofNat i - 1)
  let verts := coords.flatMap (fun (x : ℤ) =>
    coords.map (fun (y : ℤ) =>
      let xp : ℚ := props.width * (x : ℚ) / (effectiveResolution : ℚ)
      let yp : ℚ := props.width * (y : ℚ) / (effectiveResolution : ℚ)
      let p : Vec3 := ⟨xp - half, yp - half, props.radius⟩
      let p := Vector3Add p props.offset
      let direction := vnormalize p
      let p := Vector3Scale direction props.radius
      let p : Vec3 := ⟨p.x, p.y, p.z - props.radius⟩
      let worldPos := Vector3Transform p props.worldMatrix
      let height : ℚ :=
        match props.heightGen with
        | some hg => hg worldPos props.radius
        | none => 0
      let color : ColorRGBA :=
        match props.colorGen with
        | some cg => cg worldPos height
        | none => WHITE
      let heightVec := Vector3Scale direction (height * (if props.inverted then -1 else 1))
      let p := Vector3Add p heightVec
      (p, ((color.r : ℚ) / 255, (color.g : ℚ) / 255, (color.b : ℚ) / 255,
           (color.a : ℚ) / 255), direction)))
  { positions := verts.map (fun v => v.1),
    colors := verts.map (fun v => v.2.1),
    ups := verts.map (fun v => v.2.2),
    vertexCount := vertexCount }

/-! ## Chunk pool (chunk_utils.c) -/

/-- `ChunkPool` (chunk_utils.h): a growable stack of retired chunk pointers
(`chunks[0..count)`, top of stack at index `count - 1`).  Chunk pointers are
modelled as naturals; the list head is the top of the stack, so
`chunks.length` is the C `count` field.  The `capacity` field and the
`realloc` growth step of `ChunkPool_Release` change no observable state and
are not modelled. -/
structure ChunkPool where
  chunks : List ℕ
  deriving DecidableEq, Repr

/-- `ChunkPool_Release` (chunk_utils.c): push the chunk on top of the stack
(`pool->chunks[pool->count++] = chunk`, growing the backing array first if
needed). -/
def ChunkPool_Release (pool : ChunkPool) (chunk : ℕ) : ChunkPool :=
  ⟨chunk :: pool.chunks⟩

/-- `ChunkPool_Acquire` (chunk_utils.c): pop and return the top of the stack
(`return pool->chunks[--pool->count]`) when `count > 0`, else return NULL
and leave the pool untouched. -/
def ChunkPool_Acquire (pool : ChunkPool) : Option ℕ × ChunkPool :=
  match pool.chunks with
  | [] => (none, pool)
  | c :: rest => (some c, ⟨rest⟩)

end PlanetRenderer

namespace PlanetRenderer

/-! ## Planet orchestrator (planet.c)

planet.c keys chunks by formatted strings (`Planet_MakeChunkKey`, an external
`snprintf`) and stores them in a fixed array `chunkMap[MAX_CHUNKS]` of
`{key, chunk, active}` entries plus a running `chunkCount`.  The array is
modelled as a list of entries (one per slot, in index order); chunk pointers
returned by `Chunk_Create`'s `malloc` are modelled as naturals handed out by
a counter `nextChunk`.  The quadtree traversal feeding `Planet_Update`
(`CubicQuadTree_GetSides` / `QuadTree_GetChildren`, whose implementations are
not among the repository sources — only their headers and this caller are) is
modelled by the update's input: the list of chunk keys of this frame's leaf
nodes, in traversal order. -/

/-- One slot of `Planet.chunkMap` (planet.h `ChunkMapEntry`): a key string, a
chunk pointer (0 models NULL) and the occupancy flag. -/
structure PChunkEntry where
  key : String
  chunk : ℕ
  active : Bool
  deriving DecidableEq, Repr

/-- `MAX_CHUNKS` (planet.h). -/
def MAX_CHUNKS : ℕ := 16384

/-- The `Planet` state touched by the chunk-map operations (planet.h): the
slot array, the running `chunkCount` (a C `int`), and the allocator counter
standing for `malloc` in `Chunk_Create`. -/
structure CPlanet where
  chunkMap : List PChunkEntry
  chunkCount : ℤ
  nextChunk : ℕ
  deriving DecidableEq, Repr

/-- The scan loop of `Planet_FindChunk` (planet.c): examines the slots in
index order, but only while `i < planet->chunkCount` (the loop bound is
`chunkCount`, not `MAX_CHUNKS`); `n` is the remaining allowance
`chunkCount - i`. -/
def Planet_FindChunkAux (key : String) : List PChunkEntry → ℤ → Option ℕ
  | [], _ => none
  | e :: rest, n =>
    if n ≤ 0 then none
    else if e.active = true ∧ e.key = key then some e.chunk
    else Planet_FindChunkAux key rest (n - 1)

/-- `Planet_FindChunk` (planet.c): first active entry with a matching key
among the first `chunkCount` slots, else NULL. -/
def Planet_FindChunk (p : CPlanet) (key : String) : Option ℕ :=
  Planet_FindChunkAux key p.chunkMap p.chunkCount

/-- The free-slot scan of `Planet_AddChunk` (planet.c): place the new entry
in the first inactive slot; report whether a slot was found. -/
def Planet_AddChunkAux (key : String) (chunk : ℕ) :
    List PChunkEntry → List PChunkEntry × Bool
  | [] => ([], false)
  | e :: rest =>
    if e.active = false then (⟨key, chunk, true⟩ :: rest, true)
    else
      ((e :: (Planet_AddChunkAux key chunk rest).1), (Planet_AddChunkAux key chunk rest).2)

/-- `Planet_AddChunk` (planet.c): if `chunkCount >= MAX_CHUNKS`, print the
capacity diagnostic and return with the map and count untouched (the boolean
result records that the diagnostic was emitted); otherwise fill the first
inactive slot and increment `chunkCount`. -/
def Planet_AddChunk (p : CPlanet) (key : String) (chunk : ℕ) : CPlanet × Bool :=
  if p.chunkCount ≥ (MAX_CHUNKS : ℤ) then (p, true)
  else
    let r := Planet_AddChunkAux key chunk p.chunkMap
    ({ p with chunkMap := r.1,
              chunkCount := p.chunkCount + (if r.2 then 1 else 0) }, false)

/-- The scan loop of `Planet_RemoveChunk` (planet.c): deactivate the first
active entry with a matching key (clearing its chunk pointer to NULL) and
return the destroyed chunk pointer. -/
def Planet_RemoveChunkAux (key : String) :
    List PChunkEntry → List PChunkEntry × Option ℕ
  | [] => ([], none)
  | e :: rest =>
    if e.active = true ∧ e.key = key then (⟨e.key, 0, false⟩ :: rest, some e.chunk)
    else
      ((e :: (Planet_RemoveChunkAux key rest).1), (Planet_RemoveChunkAux key rest).2)

/-- `Planet_RemoveChunk` (planet.c): destroy (`Chunk_Destroy`, i.e. free) the
first active chunk with this key, deactivate its slot and decrement
`chunkCount`; a miss changes nothing.  The returned list holds the chunk
pointers passed to `Chunk_Destroy`. -/
def Planet_RemoveChunk (p : CPlanet) (key : String) : CPlanet × List ℕ :=
  match (Planet_RemoveChunkAux key p.chunkMap).2 with
  | some c =>
    ({ p with chunkMap := (Planet_RemoveChunkAux key p.chunkMap).1,
              chunkCount := p.chunkCount - 1 }, [c])
  | none => (p, [])

/-- The per-leaf loop of `Planet_Update` (planet.c, first phase): for each
leaf key, append it to `newKeys` while `newKeyCount < MAX_CHUNKS` (on
overflow the leaf is skipped entirely); then, if `Planet_FindChunk` misses,
allocate a fresh chunk (`Chunk_Create` + `Chunk_GenerateMesh` + `Chunk_Show`,
recorded in the returned list of created `(key, chunk)` pairs) and insert it
with `Planet_AddChunk`. -/
def Planet_UpdateLoop (p : CPlanet) (newKeys : List String) :
    List String → CPlanet × List String × List (String × ℕ)
  | [] => (p, newKeys, [])
  | key :: rest =>
    if newKeys.length < MAX_CHUNKS then
      let newKeys1 := newKeys ++ [key]
      match Planet_FindChunk p key with
      | some _ => Planet_UpdateLoop p newKeys1 rest
      | none =>
        let chunk := p.nextChunk
        let p1 := { p with nextChunk := p.nextChunk + 1 }
        let p2 := (Planet_AddChunk p1 key chunk).1
        let r := Planet_UpdateLoop p2 newKeys1 rest
        (r.1, r.2.1, (key, chunk) :: r.2.2)
    else Planet_UpdateLoop p newKeys rest

/-- The removal loop of `Planet_Update` (planet.c, second phase): walk the
slot array by index (reading the live, mutating state); every active entry
whose key is not among `newKeys` is removed via `Planet_RemoveChunk`
(destroying its chunk).  `fuel` is the number of remaining indices
(`MAX_CHUNKS - i` in C, i.e. the array length minus `i` here). -/
def Planet_RemoveStaleFrom (newKeys : List String) :
    ℕ → CPlanet → ℕ → CPlanet × List ℕ
  | 0, p, _ => (p, [])
  | fuel + 1, p, i =>
    match p.chunkMap[i]? with
    | none => (p, [])
    | some e =>
      if e.active = true ∧ e.key ∉ newKeys then
        let r := Planet_RemoveChunk p e.key
        let r2 := Planet_RemoveStaleFrom newKeys fuel r.1 (i + 1)
        (r2.1, r.2 ++ r2.2)
      else Planet_RemoveStaleFrom newKeys fuel p (i + 1)

/-- The full removal phase of `Planet_Update`: scan every slot of the array. -/
def Planet_RemovePhase (p : CPlanet) (newKeys : List String) : CPlanet × List ℕ :=
  Planet_RemoveStaleFrom newKeys p.chunkMap.length p 0

/-- `Planet_Update` (planet.c), over this frame's leaf key list: run the
creation phase, then the stale-removal phase.  Returns the new planet state,
the `(key, chunk)` pairs created (and mesh-generated) this frame, and the
chunk pointers destroyed (freed) this frame. -/
def Planet_Update (p : CPlanet) (leafKeys : List String) :
    CPlanet × List (String × ℕ) × List ℕ :=
  let r := Planet_UpdateLoop p [] leafKeys
  let r2 := Planet_RemovePhase r.1 r.2.1
  (r2.1, r.2.2, r2.2)

/-- Specification view of one slot after the removal phase: an active entry
whose key is not requested this frame is deactivated (and its chunk pointer
cleared), every other slot is untouched. -/
def deactivateStale (newKeys : List String) (e : PChunkEntry) : PChunkEntry :=
  if e.active = true ∧ e.key ∉ newKeys then ⟨e.key, 0, false⟩ else e

/-- Specification view of the chunks destroyed by the removal phase: the
chunk pointers of the active entries whose keys are not requested this frame,
in slot order. -/
def staleChunks (newKeys : List String) (l : List PChunkEntry) : List ℕ :=
  l.filterMap (fun e => if e.active = true ∧ e.key ∉ newKeys then some e.chunk else none)

/-- How one chunk-map slot may change across the creation phase of an update:
it is untouched, or it was free and got filled with a freshly allocated chunk
(one whose pointer is at least `fresh`). -/
def ExtR (fresh : ℕ) (old new : PChunkEntry) : Prop :=
  new = old ∨ (old.active = false ∧ new.active = true ∧ fresh ≤ new.chunk)

/-! ## Worker thread pool (thread_pool.c)

All shared thread-pool state (`workQueueHead`/`queueSize`, `activeThreads`)
is mutated only inside `queueMutex` critical sections, so the concurrent
execution is modelled as an interleaving of three atomic steps: `Enqueue`
(lines 89-103), a worker popping one job (lines 10-34, which moves a job
from the queue into the active count), and a worker finishing its job
(execution of `item->function` followed by the critical section at lines
42-45).  Two history counters record the totals ever enqueued and ever
executed; condition-variable waits read but do not change shared state. -/

/-- Thread-pool shared state: live queue length and active-worker count,
plus history counters of jobs ever enqueued and ever fully executed. -/
structure TPState where
  queueSize : ℕ
  activeThreads : ℕ
  enqueuedJobs : ℕ
  executedJobs : ℕ
  deriving DecidableEq, Repr

/-- The state after `ThreadPool_Create` (thread_pool.c): empty queue, no
active workers, nothing enqueued or executed yet. -/
def TPInit : TPState := ⟨0, 0, 0, 0⟩

/-- One atomic transition of the thread pool (one `queueMutex` critical
section of thread_pool.c). -/
inductive TPStep : TPState → TPState → Prop where
  | enqueue (s : TPState) :
      TPStep s ⟨s.queueSize + 1, s.activeThreads, s.enqueuedJobs + 1, s.executedJobs⟩
  | workerPop (s : TPState) (h : 0 < s.queueSize) :
      TPStep s ⟨s.queueSize - 1, s.activeThreads + 1, s.enqueuedJobs, s.executedJobs⟩
  | workerFinish (s : TPState) (h : 0 < s.activeThreads) :
      TPStep s ⟨s.queueSize, s.activeThreads - 1, s.enqueuedJobs, s.executedJobs + 1⟩

/-- A state the pool can reach from `TPInit` by some interleaving of worker
and caller steps. -/
def TPReachable (s : TPState) : Prop :=
  Relation.ReflTransGen TPStep TPInit s

/-- The exit condition of the wait loop in `ThreadPool_WaitAll`
(thread_pool.c lines 110-111): the caller keeps waiting while
`queueSize > 0 || activeThreads > 0`, so the call returns exactly in states
where this is `true`. -/
def ThreadPool_WaitAllReturns (s : TPState) : Bool :=
  !(s.queueSize > 0 || s.activeThreads > 0)

end PlanetRenderer

namespace PlanetRenderer

/-! ## Helper lemmas: quadtree -/

@[simp]
theorem CreateNode_isLeaf (floatBits : ℚ → ℕ) (vnormalize : Vec3 → Vec3)
    (bounds : BoundingBox3) (m : Mat4) (pr : ℚ) (po : Vec3) (f : ℤ) :
    (CreateNode floatBits vnormalize bounds m pr po f).isLeaf = true := rfl

@[simp]
theorem CreateNode_children (floatBits : ℚ → ℕ) (vnormalize : Vec3 → Vec3)
    (bounds : BoundingBox3) (m : Mat4) (pr : ℚ) (po : Vec3) (f : ℤ) :
    (CreateNode floatBits vnormalize bounds m pr po f).children = none := rfl

@[simp]
theorem CreateNode_center (floatBits : ℚ → ℕ) (vnormalize : Vec3 → Vec3)
    (bounds : BoundingBox3) (m : Mat4) (pr : ℚ) (po : Vec3) (f : ℤ) :
    (CreateNode floatBits vnormalize bounds m pr po f).center = Box3_GetCenter bounds := rfl

@[simp]
theorem CreateNode_size (floatBits : ℚ → ℕ) (vnormalize : Vec3 → Vec3)
    (bounds : BoundingBox3) (m : Mat4) (pr : ℚ) (po : Vec3) (f : ℤ) :
    (CreateNode floatBits vnormalize bounds m pr po f).size = Box3_GetSize bounds := rfl

@[simp]
theorem CreateNode_bounds (floatBits : ℚ → ℕ) (vnormalize : Vec3 → Vec3)
    (bounds : BoundingBox3) (m : Mat4) (pr : ℚ) (po : Vec3) (f : ℤ) :
    (CreateNode floatBits vnormalize bounds m pr po f).bounds = bounds := rfl

@[simp]
theorem CreateNode_id (floatBits : ℚ → ℕ) (vnormalize : Vec3 → Vec3)
    (bounds : BoundingBox3) (m : Mat4) (pr : ℚ) (po : Vec3) (f : ℤ) :
    (CreateNode floatBits vnormalize bounds m pr po f).id =
      HashChunkKey floatBits f bounds.min.x bounds.min.y (Box3_GetSize bounds).x := rfl

@[simp]
theorem QuadtreeNode.isLeaf_withSplit (n : QuadtreeNode)
    (c : QuadtreeNode × QuadtreeNode × QuadtreeNode × QuadtreeNode) :
    (n.withSplit c).isLeaf = false := by
  cases n
  rfl

@[simp]
theorem QuadtreeNode.isLeaf_mapChildren (f : QuadtreeNode → QuadtreeNode)
    (n : QuadtreeNode) : (n.mapChildren f).isLeaf = n.isLeaf := by
  cases n with
  | mk b ce s sc l fa i ch =>
    cases ch with
    | none => rfl
    | some c =>
      obtain ⟨a, c2, c3, c4⟩ := c
      rfl

@[simp]
theorem QuadtreeNode.isLeaf_splitNode (floatBits : ℚ → ℕ) (vnormalize : Vec3 → Vec3)
    (m : Mat4) (pr : ℚ) (po : Vec3) (n : QuadtreeNode) :
    (n.splitNode floatBits vnormalize m pr po).isLeaf = false := by
  cases n
  rfl

theorem leafNodes_of_isLeaf (n : QuadtreeNode) (h : n.isLeaf = true) :
    n.leafNodes = [n] := by
  cases n with
  | mk b ce s sc l fa i ch =>
    cases l
    · simp [QuadtreeNode.isLeaf] at h
    · rfl

theorem leafNodes_mapChildren_splitNode (floatBits : ℚ → ℕ) (vnormalize : Vec3 → Vec3)
    (m : Mat4) (pr : ℚ) (po : Vec3) (f : QuadtreeNode → QuadtreeNode) (n : QuadtreeNode) :
    ((n.splitNode floatBits vnormalize m pr po).mapChildren f).leafNodes =
      (f (CreateNode floatBits vnormalize ⟨n.bounds.min, n.center⟩ m pr po n.faceId)).leafNodes ++
      (f (CreateNode floatBits vnormalize
        ⟨⟨n.center.x, n.bounds.min.y, 0⟩, ⟨n.bounds.max.x, n.center.y, 0⟩⟩ m pr po n.faceId)).leafNodes ++
      (f (CreateNode floatBits vnormalize
        ⟨⟨n.bounds.min.x, n.center.y, 0⟩, ⟨n.center.x, n.bounds.max.y, 0⟩⟩ m pr po n.faceId)).leafNodes ++
      (f (CreateNode floatBits vnormalize ⟨n.center, n.bounds.max⟩ m pr po n.faceId)).leafNodes := by
  cases n
  simp [QuadtreeNode.splitNode, QuadtreeNode.withSplit, QuadtreeNode.mapChildren,
    QuadtreeNode.leafNodes, QuadtreeNode.center, QuadtreeNode.bounds, QuadtreeNode.faceId,
    List.append_assoc]

theorem InsertRecursive_succ (sqrtq : ℚ → ℚ) (floatBits : ℚ → ℕ) (vnormalize : Vec3 → Vec3)
    (fuel : ℕ) (cam : Vec3) (minNodeSize comparatorValue : ℚ) (m : Mat4) (pr : ℚ)
    (po : Vec3) (node : QuadtreeNode) :
    InsertRecursive sqrtq floatBits vnormalize (fuel + 1) cam minNodeSize comparatorValue
        m pr po node =
      if Vector3Distance sqrtq node.sphereCenter cam < node.size.x * comparatorValue ∧
          minNodeSize < node.size.x then
        ((if node.isLeaf then node.splitNode floatBits vnormalize m pr po
          else node).mapChildren
          (InsertRecursive sqrtq floatBits vnormalize fuel cam minNodeSize comparatorValue
            m pr po))
      else node := rfl

/-- Ignoring the camera, every leaf reachable from a freshly created leaf node
either is that node unchanged or was produced by a chain of splits, each of
which required its parent to exceed `minNodeSize`; hence its `size.x` is the
original size or strictly greater than `minNodeSize / 2`. -/
theorem insertRecursive_leafNodes_size (sqrtq : ℚ → ℚ) (floatBits : ℚ → ℕ)
    (vnormalize : Vec3 → Vec3) (cam : Vec3) (minNodeSize comparatorValue : ℚ) (m : Mat4)
    (pr : ℚ) (po : Vec3) :
    ∀ (fuel : ℕ) (node : QuadtreeNode), node.isLeaf = true →
      node.center = Box3_GetCenter node.bounds → node.size = Box3_GetSize node.bounds →
      ∀ ℓ ∈ (InsertRecursive sqrtq floatBits vnormalize fuel cam minNodeSize
        comparatorValue m pr po node).leafNodes,
        ℓ.size.x = node.size.x ∨ minNodeSize / 2 < ℓ.size.x := by
  intro fuel
  induction fuel with
  | zero =>
    intro node hleaf _ _ ℓ hmem
    rw [InsertRecursive, leafNodes_of_isLeaf node hleaf] at hmem
    simp at hmem
    subst hmem
    exact Or.inl rfl
  | succ k ih =>
    intro node hleaf hc hs ℓ hmem
    rw [InsertRecursive_succ] at hmem
    by_cases hp : Vector3Distance sqrtq node.sphereCenter cam <
        node.size.x * comparatorValue ∧ minNodeSize < node.size.x
    · rw [if_pos hp, if_pos hleaf, leafNodes_mapChildren_splitNode] at hmem
      have hhalf : minNodeSize / 2 < (node.bounds.max.x - node.bounds.min.x) / 2 := by
        have h2 := hp.2
        rw [hs] at h2
        simp [Box3_GetSize] at h2
        linarith
      have hcx : node.center.x = (node.bounds.min.x + node.bounds.max.x) * (1/2) := by
        rw [hc]
        rfl
      rcases List.mem_append.mp hmem with hmem3 | hm4
      · rcases List.mem_append.mp hmem3 with hmem2 | hm3
        · rcases List.mem_append.mp hmem2 with hm1 | hm2
          · rcases ih (CreateNode floatBits vnormalize ⟨node.bounds.min, node.center⟩
                m pr po node.faceId) rfl rfl rfl ℓ hm1 with he | hlt
            · refine Or.inr ?_
              rw [he]
              simp [Box3_GetSize]
              rw [hcx]
              linarith
            · exact Or.inr hlt
          · rcases ih (CreateNode floatBits vnormalize
                ⟨⟨node.center.x, node.bounds.min.y, 0⟩, ⟨node.bounds.max.x, node.center.y, 0⟩⟩
                m pr po node.faceId) rfl rfl rfl ℓ hm2 with he | hlt
            · refine Or.inr ?_
              rw [he]
              simp [Box3_GetSize]
              rw [hcx]
              linarith
            · exact Or.inr hlt
        · rcases ih (CreateNode floatBits vnormalize
              ⟨⟨node.bounds.min.x, node.center.y, 0⟩, ⟨node.center.x, node.bounds.max.y, 0⟩⟩
              m pr po node.faceId) rfl rfl rfl ℓ hm3 with he | hlt
          · refine Or.inr ?_
            rw [he]
            simp [Box3_GetSize]
            rw [hcx]
            linarith
          · exact Or.inr hlt
      · rcases ih (CreateNode floatBits vnormalize ⟨node.center, node.bounds.max⟩
            m pr po node.faceId) rfl rfl rfl ℓ hm4 with he | hlt
        · refine Or.inr ?_
          rw [he]
          simp [Box3_GetSize]
          rw [hcx]
          linarith
        · exact Or.inr hlt
    · rw [if_neg hp, leafNodes_of_isLeaf node hleaf] at hmem
      simp at hmem
      subst hmem
      exact Or.inl rfl

end PlanetRenderer

namespace PlanetRenderer

/-- The fuel computed by `Quadtree_Insert` is always adequate when
`minNodeSize > 0`: the node size is bounded by `minNodeSize * 2 ^ fuel`, so
halving reaches `minNodeSize` before the budget runs out and the truncated
recursion agrees with the C recursion. -/
theorem insertFuel_adequate (size minNodeSize : ℚ) (h : 0 < minNodeSize) :
    size ≤ minNodeSize * 2 ^ insertFuel size minNodeSize := by
  rcases le_or_lt size 0 with h0 | h0
  · exact h0.trans (by positivity)
  · have hnum : (0 : ℤ) < size.num := Rat.num_pos.mpr h0
    have hden1 : (1 : ℚ) ≤ (size.den : ℚ) := by
      exact_mod_cast size.den_pos
    have h1 : size ≤ (size.num.natAbs : ℚ) := by
      calc size = (size.num : ℚ) / (size.den : ℚ) := (Rat.num_div_den size).symm
        _ ≤ (size.num : ℚ) := div_le_self (by exact_mod_cast hnum.le) hden1
        _ = (size.num.natAbs : ℚ) := by
            rw [Int.cast_natAbs]
            rw [abs_of_nonneg (by exact_mod_cast hnum.le)]
    have hmnum : (1 : ℤ) ≤ minNodeSize.num := Rat.num_pos.mpr h
    have hdpos : (0 : ℚ) < (minNodeSize.den : ℚ) := by exact_mod_cast minNodeSize.den_pos
    have h2 : (1 : ℚ) / (minNodeSize.den : ℚ) ≤ minNodeSize := by
      rw [div_le_iff₀ hdpos, Rat.mul_den_eq_num]
      exact_mod_cast hmnum
    set a := size.num.natAbs with ha
    set d := minNodeSize.den with hd
    have h3 : ((a : ℚ) * (d : ℚ)) ≤ 2 ^ (a * d) := by
      have hlt := (Nat.lt_two_pow (a * d)).le
      calc (a : ℚ) * (d : ℚ) = ((a * d : ℕ) : ℚ) := by push_cast; ring
        _ ≤ ((2 ^ (a * d) : ℕ) : ℚ) := by exact_mod_cast hlt
        _ = 2 ^ (a * d) := by push_cast; ring
    calc size ≤ (a : ℚ) := h1
      _ = (a : ℚ) * (d : ℚ) / (d : ℚ) := by
          rw [mul_div_cancel_right₀]
          exact ne_of_gt hdpos
      _ ≤ (2 ^ (a * d) : ℚ) / (d : ℚ) := by
          exact (div_le_div_iff_of_pos_right hdpos).mpr h3
      _ = 2 ^ (a * d) * ((1 : ℚ) / (d : ℚ)) := by ring
      _ ≤ 2 ^ (a * d) * minNodeSize := by
          exact mul_le_mul_of_nonneg_left h2 (by positivity)
      _ = minNodeSize * 2 ^ insertFuel size minNodeSize := by
          rw [insertFuel]
          ring

/-- C3: during quadtree insertion, a node evaluated by `InsertRecursive` is
split exactly when `distance(sphereCenter, camera) < size.x * comparatorValue`
and `size.x > minNodeSize`; when the predicate fails, the leaf is returned
unchanged (it keeps its leaf flag and acquires no children). -/
theorem insertRecursive_splits_iff (sqrtq : ℚ → ℚ) (floatBits : ℚ → ℕ)
    (vnormalize : Vec3 → Vec3) (fuel : ℕ) (cam : Vec3)
    (minNodeSize comparatorValue pr : ℚ) (m : Mat4) (po : Vec3) (node : QuadtreeNode)
    (hleaf : node.isLeaf = true) (hfuel : 0 < fuel) :
    ((InsertRecursive sqrtq floatBits vnormalize fuel cam minNodeSize comparatorValue
        m pr po node).isLeaf = false ↔
      (Vector3Distance sqrtq node.sphereCenter cam < node.size.x * comparatorValue ∧
        minNodeSize < node.size.x)) ∧
    (¬ (Vector3Distance sqrtq node.sphereCenter cam < node.size.x * comparatorValue ∧
        minNodeSize < node.size.x) →
      InsertRecursive sqrtq floatBits vnormalize fuel cam minNodeSize comparatorValue
        m pr po node = node) := by
  obtain ⟨k, rfl⟩ : ∃ k, fuel = k + 1 := by
    cases fuel with
    | zero => exact absurd hfuel (by simp)
    | succ k => exact ⟨k, rfl⟩
  rw [InsertRecursive_succ]
  by_cases hp : Vector3Distance sqrtq node.sphereCenter cam <
      node.size.x * comparatorValue ∧ minNodeSize < node.size.x
  · rw [if_pos hp, if_pos hleaf]
    constructor
    · simp [hp]
    · intro hn
      exact absurd hp hn
  · rw [if_neg hp]
    constructor
    · simp [hleaf, hp]
    · intro _
      rfl

/-- C3 witness: a concrete leaf (face-local square `[0,2]²`, camera at the
origin, constant-zero square root model) satisfies the split predicate and is
indeed split by one step of insertion. -/
theorem insertRecursive_splits_iff_witness :
    (InsertRecursive (fun _ => 0) (fun _ => 0) (fun v => v) 1 ⟨0, 0, 0⟩ 1 1
      Mat4.identity 1 ⟨0, 0, 0⟩
      (CreateNode (fun _ => 0) (fun v => v) ⟨⟨0, 0, 0⟩, ⟨2, 2, 0⟩⟩ Mat4.identity 1
        ⟨0, 0, 0⟩ 0)).isLeaf = false :=
  ((insertRecursive_splits_iff (fun _ => 0) (fun _ => 0) (fun v => v) 1 ⟨0, 0, 0⟩ 1 1 1
    Mat4.identity ⟨0, 0, 0⟩
    (CreateNode (fun _ => 0) (fun v => v) ⟨⟨0, 0, 0⟩, ⟨2, 2, 0⟩⟩ Mat4.identity 1
      ⟨0, 0, 0⟩ 0) rfl (by decide)).1).mpr
    (by with_unfolding_all decide)

/-- C4 (amended): every leaf of a face quadtree either still has the root's
size `2 * size` (it was never split) or has `size.x > minNodeSize / 2`:
subdivision stops at nodes of size at most `minNodeSize`, but the children
created by the last split halve their parent, so leaves may fall below
`minNodeSize` down to (but not including) `minNodeSize / 2`. -/
theorem quadtree_leaf_size_floor (sqrtq : ℚ → ℚ) (floatBits : ℚ → ℕ)
    (vnormalize : Vec3 → Vec3) (s minNodeSize comparatorValue : ℚ) (origin : Vec3)
    (m : Mat4) (faceId : ℤ) (pos : Vec3) (_hmin : 0 < minNodeSize) :
    List.Forall (fun ℓ => ℓ.size.x = 2 * s ∨ minNodeSize / 2 < ℓ.size.x)
      (Quadtree_GetLeafNodes (Quadtree_Insert sqrtq floatBits vnormalize
        (Quadtree_Create floatBits vnormalize s minNodeSize comparatorValue origin m
          faceId) pos)) := by
  rw [List.forall_iff_forall_mem]
  intro ℓ hmem
  have h := insertRecursive_leafNodes_size sqrtq floatBits vnormalize pos minNodeSize
    comparatorValue m (Quadtree_Create floatBits vnormalize s minNodeSize comparatorValue
      origin m faceId).size origin
    (insertFuel (Quadtree_Create floatBits vnormalize s minNodeSize comparatorValue
      origin m faceId).root.size.x minNodeSize)
    (CreateNode floatBits vnormalize ⟨⟨-s, -s, 0⟩, ⟨s, s, 0⟩⟩ m s origin faceId)
    rfl rfl rfl ℓ hmem
  rcases h with he | hlt
  · left
    rw [he]
    simp [Box3_GetSize]
    ring
  · right
    exact hlt

/-- C4 witness: a tree of face size 2 (root `size.x = 4`) with
`minNodeSize = 3 > 0`; all four leaves satisfy the amended bound. -/
theorem quadtree_leaf_size_floor_witness :
    List.Forall (fun ℓ => ℓ.size.x = 2 * 2 ∨ (3 : ℚ) / 2 < ℓ.size.x)
      (Quadtree_GetLeafNodes (Quadtree_Insert (fun _ => 0) (fun _ => 0) (fun v => v)
        (Quadtree_Create (fun _ => 0) (fun v => v) 2 3 1 ⟨0, 0, 0⟩ Mat4.identity 0)
        ⟨0, 0, 0⟩)) :=
  quadtree_leaf_size_floor (fun _ => 0) (fun _ => 0) (fun v => v) 2 3 1 ⟨0, 0, 0⟩
    Mat4.identity 0 ⟨0, 0, 0⟩ (by norm_num)

/-- C4 counterexample: with `minNodeSize = 3 > 0`, face size 2 and the camera
at the center, the root (`size.x = 4 > 3`) splits and all four leaves have
`size.x = 2 < 3 = minNodeSize` — subdivision does produce leaves strictly
smaller than `minNodeSize`, refuting `n.size.x >= minNodeSize`.  (At this
input the subdivision outcome does not depend on the square-root or
normalization models: the root distance is `sqrt 0 = 0` and the children fail
the size test outright.) -/
theorem quadtree_leaf_below_min_counterexample :
    (Quadtree_GetLeafNodes (Quadtree_Insert (fun _ => 0) (fun _ => 0) (fun v => v)
        (Quadtree_Create (fun _ => 0) (fun v => v) 2 3 1 ⟨0, 0, 0⟩ Mat4.identity 0)
        ⟨0, 0, 0⟩)).map (fun n => n.size.x) = [2, 2, 2, 2] ∧ ¬ ((3 : ℚ) ≤ 2) := by
  with_unfolding_all decide

/-- C7 (amended): `Quadtree_Create` performs no validation of
`comparatorValue`: for a non-positive comparator it still builds and returns
a tree (storing the comparator and a single leaf root); such a tree is inert —
insertion never splits it, since the distance (a square root, hence
nonnegative) can never be below `size.x * comparatorValue ≤ 0`. -/
theorem quadtree_create_nonpositive_comparator (sqrtq : ℚ → ℚ) (floatBits : ℚ → ℕ)
    (vnormalize : Vec3 → Vec3) (s minNodeSize comp : ℚ) (origin : Vec3) (m : Mat4)
    (faceId : ℤ) (pos : Vec3) (hcomp : comp ≤ 0) (hs : 0 ≤ s)
    (hsqrt : ∀ q, 0 ≤ q → 0 ≤ sqrtq q) :
    (Quadtree_Create floatBits vnormalize s minNodeSize comp origin m faceId).comparatorValue
        = comp ∧
    (Quadtree_Create floatBits vnormalize s minNodeSize comp origin m faceId).root.isLeaf
        = true ∧
    Quadtree_Insert sqrtq floatBits vnormalize
        (Quadtree_Create floatBits vnormalize s minNodeSize comp origin m faceId) pos =
      Quadtree_Create floatBits vnormalize s minNodeSize comp origin m faceId := by
  refine ⟨rfl, rfl, ?_⟩
  have hroot : ∀ fuel, InsertRecursive sqrtq floatBits vnormalize fuel pos
      (Quadtree_Create floatBits vnormalize s minNodeSize comp origin m faceId).minNodeSize
      (Quadtree_Create floatBits vnormalize s minNodeSize comp origin m
        faceId).comparatorValue
      (Quadtree_Create floatBits vnormalize s minNodeSize comp origin m faceId).localToWorld
      (Quadtree_Create floatBits vnormalize s minNodeSize comp origin m faceId).size
      (Quadtree_Create floatBits vnormalize s minNodeSize comp origin m faceId).origin
      (Quadtree_Create floatBits vnormalize s minNodeSize comp origin m faceId).root =
      (Quadtree_Create floatBits vnormalize s minNodeSize comp origin m faceId).root := by
    intro fuel
    cases fuel with
    | zero => rfl
    | succ k =>
      rw [InsertRecursive_succ]
      rw [if_neg]
      rintro ⟨h1, _⟩
      have hsize : (Quadtree_Create floatBits vnormalize s minNodeSize comp origin m
          faceId).root.size.x = s - -s := rfl
      have hcv : (Quadtree_Create floatBits vnormalize s minNodeSize comp origin m
          faceId).comparatorValue = comp := rfl
      have hnonneg : 0 ≤ Vector3Distance sqrtq (Quadtree_Create floatBits vnormalize s
          minNodeSize comp origin m faceId).root.sphereCenter pos := by
        apply hsqrt
        unfold Vector3_DistanceSquared
        exact add_nonneg (add_nonneg (mul_self_nonneg _) (mul_self_nonneg _))
          (mul_self_nonneg _)
      have hle : (Quadtree_Create floatBits vnormalize s minNodeSize comp origin m
          faceId).root.size.x * (Quadtree_Create floatBits vnormalize s minNodeSize comp
            origin m faceId).comparatorValue ≤ 0 := by
        rw [hcv]
        apply mul_nonpos_of_nonneg_of_nonpos _ hcomp
        rw [hsize]
        linarith
      linarith
  rw [Quadtree_Insert, hroot]

/-- C7 amended witness: comparator `-1`, size 1: the tree is built, stores the
comparator, and insertion leaves it a single leaf. -/
theorem quadtree_create_nonpositive_comparator_witness :
    (Quadtree_Create (fun _ => 0) (fun v => v) 1 1 (-1) ⟨0, 0, 0⟩ Mat4.identity
        0).comparatorValue = -1 ∧
    (Quadtree_Create (fun _ => 0) (fun v => v) 1 1 (-1) ⟨0, 0, 0⟩ Mat4.identity
        0).root.isLeaf = true ∧
    Quadtree_Insert (fun _ => 0) (fun _ => 0) (fun v => v)
        (Quadtree_Create (fun _ => 0) (fun v => v) 1 1 (-1) ⟨0, 0, 0⟩ Mat4.identity 0)
        ⟨5, 0, 0⟩ =
      Quadtree_Create (fun _ => 0) (fun v => v) 1 1 (-1) ⟨0, 0, 0⟩ Mat4.identity 0 :=
  quadtree_create_nonpositive_comparator (fun _ => 0) (fun _ => 0) (fun v => v) 1 1 (-1)
    ⟨0, 0, 0⟩ Mat4.identity 0 ⟨5, 0, 0⟩ (by norm_num) (by norm_num) (fun q _ => le_refl 0)

/-- C7 counterexample: `Quadtree_Create` called with `comparatorValue = -1`
does not fail fast — it returns a fully built tree (parameters stored, root
allocated as a leaf over `[-1,1]²`), exactly as for a valid comparator;
quadtree.c contains no validation or error path. -/
theorem quadtree_create_rejects_counterexample :
    (Quadtree_Create (fun _ => 0) (fun v => v) 1 1 (-1) ⟨0, 0, 0⟩ Mat4.identity
        0).comparatorValue = -1 ∧
    (Quadtree_Create (fun _ => 0) (fun v => v) 1 1 (-1) ⟨0, 0, 0⟩ Mat4.identity
        0).root.bounds = ⟨⟨-1, -1, 0⟩, ⟨1, 1, 0⟩⟩ ∧
    (Quadtree_Create (fun _ => 0) (fun v => v) 1 1 (-1) ⟨0, 0, 0⟩ Mat4.identity
        0).root.isLeaf = true := by
  with_unfolding_all decide

/-- C8: a node's id is a pure function of `(faceId, bounds.min.x,
bounds.min.y, size.x)`: two `CreateNode` calls that agree on these — under
arbitrary, possibly different transforms, radii and origins (i.e. in
different tree constructions) — produce the same id. -/
theorem createNode_id_deterministic (floatBits : ℚ → ℕ) (vnormalize : Vec3 → Vec3)
    (b1 b2 : BoundingBox3) (m1 m2 : Mat4) (r1 r2 : ℚ) (o1 o2 : Vec3) (f : ℤ)
    (hx : b1.min.x = b2.min.x) (hy : b1.min.y = b2.min.y)
    (hs : (Box3_GetSize b1).x = (Box3_GetSize b2).x) :
    (CreateNode floatBits vnormalize b1 m1 r1 o1 f).id =
      (CreateNode floatBits vnormalize b2 m2 r2 o2 f).id := by
  rw [CreateNode_id, CreateNode_id, hx, hy, hs]

/-- C8 witness: the same face-local rectangle on face 3 hashed under two
different transforms, radii and origins yields the same id. -/
theorem createNode_id_deterministic_witness :
    (CreateNode (fun q => q.num.natAbs) (fun v => v) ⟨⟨0, 0, 0⟩, ⟨1, 1, 0⟩⟩ Mat4.identity
        1 ⟨0, 0, 0⟩ 3).id =
      (CreateNode (fun q => q.num.natAbs) (fun v => v) ⟨⟨0, 0, 0⟩, ⟨1, 1, 0⟩⟩
        (MatrixTranslate 1 2 3) 99 ⟨7, 7, 7⟩ 3).id :=
  createNode_id_deterministic (fun q => q.num.natAbs) (fun v => v)
    ⟨⟨0, 0, 0⟩, ⟨1, 1, 0⟩⟩ ⟨⟨0, 0, 0⟩, ⟨1, 1, 0⟩⟩ Mat4.identity (MatrixTranslate 1 2 3)
    1 99 ⟨0, 0, 0⟩ ⟨7, 7, 7⟩ 3 rfl rfl rfl

end PlanetRenderer

namespace PlanetRenderer

/-- C5 (amended): for every chunk, `GenerateInitialHeights` synthesizes a
`(resolution + 4)²` vertex grid — the `(resolution + 1)` interior grid plus a
one-vertex skirt ring on every side (the loops run from `-1` to
`resolution + 2`) — and reports exactly that `vertexCount`; the positions
buffer holds one vertex per grid sample. -/
theorem generateInitialHeights_vertexCount (vnormalize : Vec3 → Vec3)
    (props : ChunkProps) :
    (GenerateInitialHeights vnormalize props).vertexCount =
      (props.resolution + 4) ^ 2 ∧
    (GenerateInitialHeights vnormalize props).positions.length =
      (props.resolution + 4) ^ 2 := by
  constructor
  · show (props.resolution + 4) * (props.resolution + 4) = (props.resolution + 4) ^ 2
    ring
  · simp only [GenerateInitialHeights, List.length_map, List.length_flatMap,
      Function.comp_def, List.map_const', List.sum_replicate, List.length_range,
      smul_eq_mul]
    ring

/-- C5 counterexample: at the spec's example resolution 16 the reported vertex
count is `(16+4)² = 400`, not `(16+1)² = 289`. -/
theorem generateInitialHeights_counterexample :
    (GenerateInitialHeights (fun v => v)
        ⟨⟨0, 0, 0⟩, ⟨0, 0, 0⟩, Mat4.identity, 1, 1, 10, 16, 1, false, none,
          none⟩).vertexCount = 400 ∧ (400 : ℕ) ≠ (16 + 1) ^ 2 := by
  with_unfolding_all decide

/-- The conservation invariant of the thread pool: every job ever enqueued is
either still queued, currently being executed by a worker, or fully executed. -/
theorem tp_invariant (s : TPState) (hs : TPReachable s) :
    s.enqueuedJobs = s.queueSize + s.activeThreads + s.executedJobs := by
  induction hs with
  | refl => rfl
  | tail _ step ih =>
    cases step with
    | enqueue => dsimp only; omega
    | workerPop h => dsimp only; omega
    | workerFinish h => dsimp only; omega

/-- C9: whenever the wait loop of `ThreadPool_WaitAll` can return in a
reachable pool state — i.e. both the queue size and the active-worker count
are zero — every job ever enqueued has been fully executed; the caller is
blocked in all other states. -/
theorem threadPool_waitAll_all_executed (s : TPState) (hreach : TPReachable s)
    (hret : ThreadPool_WaitAllReturns s = true) : s.executedJobs = s.enqueuedJobs := by
  have hinv := tp_invariant s hreach
  have hzero : s.queueSize = 0 ∧ s.activeThreads = 0 := by
    rw [ThreadPool_WaitAllReturns] at hret
    simp only [Bool.not_eq_true', Bool.or_eq_false_iff, decide_eq_false_iff_not,
      not_lt, Nat.le_zero] at hret
    exact hret
  omega

/-- C9 witness: enqueue one job, let a worker pop and finish it; in the
resulting state the wait loop may return and indeed one job was enqueued and
one executed. -/
theorem threadPool_waitAll_all_executed_witness :
    (⟨0, 0, 1, 1⟩ : TPState).executedJobs = (⟨0, 0, 1, 1⟩ : TPState).enqueuedJobs :=
  threadPool_waitAll_all_executed ⟨0, 0, 1, 1⟩
    (Relation.ReflTransGen.tail
      (Relation.ReflTransGen.tail
        (Relation.ReflTransGen.tail Relation.ReflTransGen.refl
          (TPStep.enqueue TPInit))
        (TPStep.workerPop ⟨1, 0, 1, 0⟩ (by decide)))
      (TPStep.workerFinish ⟨0, 1, 1, 0⟩ (by decide)))
    (by decide)

/-- C10: acquiring right after releasing a chunk returns exactly that chunk
and restores the pool (including its count) to its pre-release value, and
acquiring from an empty pool returns NULL and leaves the pool unchanged. -/
theorem chunkPool_release_acquire (pool : ChunkPool) (c : ℕ) :
    ChunkPool_Acquire (ChunkPool_Release pool c) = (some c, pool) ∧
    (pool.chunks.length = 0 → ChunkPool_Acquire pool = (none, pool)) := by
  constructor
  · rfl
  · intro h
    have hnil : pool.chunks = [] := List.length_eq_zero.mp h
    rw [ChunkPool_Acquire, hnil]

/-- C10 witness: release chunk 9 onto the pool holding chunk 5, then acquire:
chunk 9 comes back and the pool again holds exactly chunk 5; acquiring from
the empty pool yields NULL. -/
theorem chunkPool_release_acquire_witness :
    ChunkPool_Acquire (ChunkPool_Release ⟨[5]⟩ 9) = (some 9, ⟨[5]⟩) ∧
    ChunkPool_Acquire ⟨[]⟩ = (none, ⟨[]⟩) :=
  ⟨(chunkPool_release_acquire ⟨[5]⟩ 9).1,
   (chunkPool_release_acquire ⟨[]⟩ 0).2 rfl⟩

/-- C1: the `Planet_FindChunk` scan stops at index `chunkCount` (planet.c
line 16), so after a removal leaves a hole at a low index, an active chunk at
a higher index is missed.  Concretely, starting from an empty two-slot map:
frame 1 requests keys A and B (chunks 1 and 2 created), frame 2 requests only
B (A is destroyed, leaving a hole at slot 0 and `chunkCount = 1`), and frame
3 requests B again — although chunk 2 for key B is still active in the map,
the update misses it, allocates and mesh-generates a fresh chunk 3 for key B,
and leaves two active entries for the same key. -/
theorem planet_findChunk_scan_bug :
    (Planet_Update ⟨[⟨"", 0, false⟩, ⟨"", 0, false⟩], 0, 1⟩ ["A", "B"]).1 =
      ⟨[⟨"A", 1, true⟩, ⟨"B", 2, true⟩], 2, 3⟩ ∧
    (Planet_Update ⟨[⟨"A", 1, true⟩, ⟨"B", 2, true⟩], 2, 3⟩ ["B"]).1 =
      ⟨[⟨"A", 0, false⟩, ⟨"B", 2, true⟩], 1, 3⟩ ∧
    (⟨"B", 2, true⟩ : PChunkEntry) ∈
      (⟨[⟨"A", 0, false⟩, ⟨"B", 2, true⟩], 1, 3⟩ : CPlanet).chunkMap ∧
    Planet_FindChunk ⟨[⟨"A", 0, false⟩, ⟨"B", 2, true⟩], 1, 3⟩ "B" = none ∧
    Planet_Update ⟨[⟨"A", 0, false⟩, ⟨"B", 2, true⟩], 1, 3⟩ ["B"] =
      (⟨[⟨"B", 3, true⟩, ⟨"B", 2, true⟩], 2, 4⟩, [("B", 3)], []) := by
  with_unfolding_all decide

/-- C2 counterexample: a planet whose single chunk (key "a", chunk 7) is not
requested this frame: one update call destroys chunk 7 (`Planet_RemoveChunk`
calls `Chunk_Destroy`, i.e. `free`) — the destroyed list is `[7]` and
planet.c never touches any `ChunkPool`, so the chunk ends up freed, not
released into a pool. -/
theorem planet_update_frees_counterexample :
    Planet_Update ⟨[⟨"a", 7, true⟩], 1, 8⟩ [] =
      (⟨[⟨"a", 0, false⟩], 0, 8⟩, [], [7]) := by
  with_unfolding_all decide

end PlanetRenderer

namespace PlanetRenderer

/-! ## Helper lemmas: planet chunk map -/

theorem forall₂_extR_refl (fresh : ℕ) (l : List PChunkEntry) :
    List.Forall₂ (ExtR fresh) l l :=
  List.forall₂_same.mpr (fun _ _ => Or.inl rfl)

theorem forall₂_extR_trans {f1 f2 : ℕ} {a b c : List PChunkEntry}
    (h1 : List.Forall₂ (ExtR f1) a b) (h2 : List.Forall₂ (ExtR f2) b c) (hf : f1 ≤ f2) :
    List.Forall₂ (ExtR f1) a c := by
  induction h1 generalizing c with
  | nil =>
    cases h2
    exact List.Forall₂.nil
  | cons hR h1' ih =>
    cases h2 with
    | cons hR2 h2' =>
      refine List.Forall₂.cons ?_ (ih h2')
      rcases hR2 with rfl | ⟨hbin, hcact, hge⟩
      · exact hR
      · rcases hR with rfl | ⟨_, hbact, _⟩
        · exact Or.inr ⟨hbin, hcact, hf.trans hge⟩
        · rw [hbact] at hbin
          cases hbin

theorem addChunkAux_extends (key : String) (chunk fresh : ℕ) (hc : fresh ≤ chunk) :
    ∀ l : List PChunkEntry,
      List.Forall₂ (ExtR fresh) l (Planet_AddChunkAux key chunk l).1 := by
  intro l
  induction l with
  | nil => exact List.Forall₂.nil
  | cons e rest ih =>
    by_cases h : e.active = false
    · rw [Planet_AddChunkAux, if_pos h]
      exact List.Forall₂.cons (Or.inr ⟨h, rfl, hc⟩) (forall₂_extR_refl fresh rest)
    · rw [Planet_AddChunkAux, if_neg h]
      exact List.Forall₂.cons (Or.inl rfl) ih

theorem addChunk_nextChunk (p : CPlanet) (key : String) (chunk : ℕ) :
    (Planet_AddChunk p key chunk).1.nextChunk = p.nextChunk := by
  rw [Planet_AddChunk]
  split
  · rfl
  · rfl

theorem addChunk_extends (p : CPlanet) (key : String) (chunk fresh : ℕ)
    (hc : fresh ≤ chunk) :
    List.Forall₂ (ExtR fresh) p.chunkMap (Planet_AddChunk p key chunk).1.chunkMap := by
  rw [Planet_AddChunk]
  split
  · exact forall₂_extR_refl fresh p.chunkMap
  · exact addChunkAux_extends key chunk fresh hc p.chunkMap

/-- `Planet_AddChunk` on a full table (C6, first half): the planet state is
returned untouched and the capacity diagnostic is emitted. -/
theorem addChunk_full (p : CPlanet) (key : String) (chunk : ℕ)
    (h : (MAX_CHUNKS : ℤ) ≤ p.chunkCount) : Planet_AddChunk p key chunk = (p, true) := by
  rw [Planet_AddChunk, if_pos h]

theorem updateLoop_extends (leaves : List String) :
    ∀ (p : CPlanet) (nk : List String),
      List.Forall₂ (ExtR p.nextChunk) p.chunkMap
        (Planet_UpdateLoop p nk leaves).1.chunkMap ∧
      p.nextChunk ≤ (Planet_UpdateLoop p nk leaves).1.nextChunk ∧
      ∀ kc ∈ (Planet_UpdateLoop p nk leaves).2.2, p.nextChunk ≤ kc.2 := by
  induction leaves with
  | nil =>
    intro p nk
    refine ⟨forall₂_extR_refl _ _, le_refl _, ?_⟩
    intro kc hkc
    simp [Planet_UpdateLoop] at hkc
  | cons key rest ih =>
    intro p nk
    by_cases hcap : nk.length < MAX_CHUNKS
    · cases hfind : Planet_FindChunk p key with
      | some c =>
        simpa only [Planet_UpdateLoop, if_pos hcap, hfind] using ih p (nk ++ [key])
      | none =>
        simp only [Planet_UpdateLoop, if_pos hcap, hfind]
        have hnext : ((Planet_AddChunk { p with nextChunk := p.nextChunk + 1 } key
            p.nextChunk).1).nextChunk = p.nextChunk + 1 :=
          addChunk_nextChunk _ _ _
        have hstep : List.Forall₂ (ExtR p.nextChunk) p.chunkMap
            ((Planet_AddChunk { p with nextChunk := p.nextChunk + 1 } key
              p.nextChunk).1).chunkMap :=
          addChunk_extends { p with nextChunk := p.nextChunk + 1 } key p.nextChunk
            p.nextChunk (le_refl _)
        obtain ⟨ih1, ih2, ih3⟩ := ih ((Planet_AddChunk { p with nextChunk :=
          p.nextChunk + 1 } key p.nextChunk).1) (nk ++ [key])
        rw [hnext] at ih1 ih2
        refine ⟨?_, ?_, ?_⟩
        · exact forall₂_extR_trans hstep ih1 (Nat.le_succ _)
        · exact le_trans (Nat.le_succ _) ih2
        · intro kc hkc
          rcases List.mem_cons.mp hkc with rfl | htail
          · exact le_refl _
          · have := ih3 kc htail
            rw [hnext] at this
            omega
    · simpa only [Planet_UpdateLoop, if_neg hcap] using ih p nk

theorem updateLoop_newKeys (leaves : List String) :
    ∀ (p : CPlanet) (nk : List String), nk.length + leaves.length ≤ MAX_CHUNKS →
      (Planet_UpdateLoop p nk leaves).2.1 = nk ++ leaves := by
  induction leaves with
  | nil =>
    intro p nk _
    simp [Planet_UpdateLoop]
  | cons key rest ih =>
    intro p nk hlen
    rw [List.length_cons] at hlen
    have hcap : nk.length < MAX_CHUNKS := by omega
    have hlen1 : (nk ++ [key]).length + rest.length ≤ MAX_CHUNKS := by
      rw [List.length_append, List.length_cons]
      simp only [List.length_nil]
      omega
    cases hfind : Planet_FindChunk p key with
    | some c =>
      rw [Planet_UpdateLoop]
      simp only [if_pos hcap, hfind]
      rw [ih p (nk ++ [key]) hlen1]
      simp
    | none =>
      rw [Planet_UpdateLoop]
      simp only [if_pos hcap, hfind]
      rw [ih _ (nk ++ [key]) hlen1]
      simp

theorem updateLoop_full (leaves : List String) :
    ∀ (p : CPlanet) (nk : List String), (MAX_CHUNKS : ℤ) ≤ p.chunkCount →
      (Planet_UpdateLoop p nk leaves).1.chunkMap = p.chunkMap ∧
      (Planet_UpdateLoop p nk leaves).1.chunkCount = p.chunkCount := by
  induction leaves with
  | nil =>
    intro p nk _
    exact ⟨rfl, rfl⟩
  | cons key rest ih =>
    intro p nk hfull
    by_cases hcap : nk.length < MAX_CHUNKS
    · cases hfind : Planet_FindChunk p key with
      | some c =>
        simpa only [Planet_UpdateLoop, if_pos hcap, hfind] using ih p (nk ++ [key]) hfull
      | none =>
        simp only [Planet_UpdateLoop, if_pos hcap, hfind]
        have hadd : Planet_AddChunk { p with nextChunk := p.nextChunk + 1 } key
            p.nextChunk = ({ p with nextChunk := p.nextChunk + 1 }, true) :=
          addChunk_full _ _ _ hfull
        rw [hadd]
        exact ih { p with nextChunk := p.nextChunk + 1 } (nk ++ [key]) hfull
    · simpa only [Planet_UpdateLoop, if_neg hcap] using ih p nk hfull

end PlanetRenderer

namespace PlanetRenderer

theorem removeChunkAux_cons_found (key : String) (e : PChunkEntry)
    (rest : List PChunkEntry) (h : e.active = true ∧ e.key = key) :
    Planet_RemoveChunkAux key (e :: rest) = (⟨e.key, 0, false⟩ :: rest, some e.chunk) := by
  rw [Planet_RemoveChunkAux, if_pos h]

theorem removeChunkAux_append (key : String) (suf : List PChunkEntry) :
    ∀ pre : List PChunkEntry, (∀ e ∈ pre, ¬(e.active = true ∧ e.key = key)) →
      Planet_RemoveChunkAux key (pre ++ suf) =
        (pre ++ (Planet_RemoveChunkAux key suf).1, (Planet_RemoveChunkAux key suf).2) := by
  intro pre
  induction pre with
  | nil =>
    intro _
    simp
  | cons e rest ih =>
    intro hpre
    rw [List.cons_append, Planet_RemoveChunkAux,
      if_neg (hpre e (List.mem_cons_self e rest))]
    rw [ih (fun e' he' => hpre e' (List.mem_cons_of_mem e he'))]
    rfl

theorem removeStaleFrom_spec (newKeys : List String) :
    ∀ (suf pre : List PChunkEntry) (c : ℤ) (nc : ℕ),
      (∀ e ∈ pre, e.active = true → e.key ∈ newKeys) →
      Planet_RemoveStaleFrom newKeys suf.length ⟨pre ++ suf, c, nc⟩ pre.length =
        (⟨pre ++ suf.map (deactivateStale newKeys),
          c - (staleChunks newKeys suf).length, nc⟩,
         staleChunks newKeys suf) := by
  intro suf
  induction suf with
  | nil =>
    intro pre c nc _
    simp [Planet_RemoveStaleFrom, staleChunks]
  | cons e rest ih =>
    intro pre c nc hpre
    have hget : ((⟨pre ++ e :: rest, c, nc⟩ : CPlanet)).chunkMap[pre.length]? = some e := by
      show (pre ++ e :: rest)[pre.length]? = some e
      rw [List.getElem?_append_right (le_refl _)]
      simp
    rw [List.length_cons, Planet_RemoveStaleFrom]
    simp only [hget]
    by_cases hcase : e.active = true ∧ e.key ∉ newKeys
    · rw [if_pos hcase]
      have hnopre : ∀ e' ∈ pre, ¬(e'.active = true ∧ e'.key = e.key) := by
        rintro e' he' ⟨ha, hk⟩
        exact hcase.2 (hk ▸ hpre e' he' ha)
      have haux : Planet_RemoveChunkAux e.key (pre ++ e :: rest) =
          (pre ++ ⟨e.key, 0, false⟩ :: rest, some e.chunk) := by
        rw [removeChunkAux_append e.key (e :: rest) pre hnopre,
          removeChunkAux_cons_found e.key e rest ⟨hcase.1, rfl⟩]
      have hrem : Planet_RemoveChunk ⟨pre ++ e :: rest, c, nc⟩ e.key =
          (⟨pre ++ ⟨e.key, 0, false⟩ :: rest, c - 1, nc⟩, [e.chunk]) := by
        rw [Planet_RemoveChunk]
        simp only [haux]
      rw [hrem]
      have hih := ih (pre ++ [(⟨e.key, 0, false⟩ : PChunkEntry)]) (c - 1) nc
        (by
          intro e' he' hact
          rcases List.mem_append.mp he' with hin | hsing
          · exact hpre e' hin hact
          · simp at hsing
            rw [hsing] at hact
            cases hact)
      rw [List.append_assoc] at hih
      simp only [List.singleton_append] at hih
      have hlen : (pre ++ [(⟨e.key, 0, false⟩ : PChunkEntry)]).length = pre.length + 1 := by
        simp
      rw [hlen] at hih
      rw [hih]
      have hde : deactivateStale newKeys e = ⟨e.key, 0, false⟩ := by
        rw [deactivateStale, if_pos hcase]
      have hstale : staleChunks newKeys (e :: rest) =
          e.chunk :: staleChunks newKeys rest := by
        rw [staleChunks, List.filterMap_cons]
        simp only [if_pos hcase]
        rfl
      rw [hstale, List.map_cons, hde]
      simp only [List.append_assoc, List.singleton_append, List.length_cons]
      have h1 : (((staleChunks newKeys rest).length + 1 : ℕ) : ℤ) =
          ((staleChunks newKeys rest).length : ℤ) + 1 := by push_cast; ring
      rw [h1]
      have h2 : c - 1 - ((staleChunks newKeys rest).length : ℤ) =
          c - (((staleChunks newKeys rest).length : ℤ) + 1) := by ring
      rw [h2]
    · rw [if_neg hcase]
      have hih := ih (pre ++ [e]) c nc
        (by
          intro e' he' hact
          rcases List.mem_append.mp he' with hin | hsing
          · exact hpre e' hin hact
          · simp at hsing
            rw [hsing] at hact
            rw [not_and_or] at hcase
            rcases hcase with hna | hnk
            · rw [hsing]
              exact absurd hact hna
            · rw [not_not] at hnk
              rw [hsing]
              exact hnk)
      rw [List.append_assoc] at hih
      simp only [List.singleton_append] at hih
      have hlen : (pre ++ [e]).length = pre.length + 1 := by simp
      rw [hlen] at hih
      rw [hih]
      have hde : deactivateStale newKeys e = e := by
        rw [deactivateStale, if_neg hcase]
      have hstale : staleChunks newKeys (e :: rest) = staleChunks newKeys rest := by
        rw [staleChunks, List.filterMap_cons]
        simp only [if_neg hcase]
        rfl
      rw [hstale, List.map_cons, hde]
      simp [List.append_assoc]

theorem removePhase_spec (p : CPlanet) (newKeys : List String) :
    Planet_RemovePhase p newKeys =
      (⟨p.chunkMap.map (deactivateStale newKeys),
        p.chunkCount - (staleChunks newKeys p.chunkMap).length, p.nextChunk⟩,
       staleChunks newKeys p.chunkMap) := by
  have h := removeStaleFrom_spec newKeys p.chunkMap [] p.chunkCount p.nextChunk
    (by intro e he _; cases he)
  simpa only [List.nil_append, List.length_nil] using h

end PlanetRenderer

namespace PlanetRenderer

/-- C2 (amended): after one `Planet_Update` call, every chunk of the old map
ends up in exactly one place — if its key is requested again it stays in the
chunk map (same entry, same chunk object) and is not destroyed; otherwise it
is destroyed (`Chunk_Destroy`, i.e. freed — planet.c has no chunk pool) and
no active map entry still holds its pointer.  Hypotheses: the frame's leaf
list fits the capacity, all live chunk pointers predate the allocator
counter, and no two active slots share a chunk pointer. -/
theorem planet_update_conservation (p : CPlanet) (leaves : List String) (j : ℕ)
    (hj : j < p.chunkMap.length) (hact : p.chunkMap[j].active = true)
    (hlen : leaves.length ≤ MAX_CHUNKS)
    (hfresh : ∀ e ∈ p.chunkMap, e.active = true → e.chunk < p.nextChunk)
    (hinj : ∀ i k : Fin p.chunkMap.length,
      p.chunkMap[i].active = true → p.chunkMap[k].active = true →
      p.chunkMap[i].chunk = p.chunkMap[k].chunk → i = k) :
    (p.chunkMap[j].key ∈ leaves ∧
      p.chunkMap[j] ∈ (Planet_Update p leaves).1.chunkMap ∧
      p.chunkMap[j].chunk ∉ (Planet_Update p leaves).2.2) ∨
    (p.chunkMap[j].key ∉ leaves ∧
      p.chunkMap[j].chunk ∈ (Planet_Update p leaves).2.2 ∧
      ∀ e1 ∈ (Planet_Update p leaves).1.chunkMap, e1.active = true →
        e1.chunk ≠ p.chunkMap[j].chunk) := by
  have hnk : (Planet_UpdateLoop p [] leaves).2.1 = leaves := by
    have h := updateLoop_newKeys leaves p [] (by simpa using hlen)
    simpa using h
  have hext := (updateLoop_extends leaves p []).1
  have hlen1 : p.chunkMap.length = (Planet_UpdateLoop p [] leaves).1.chunkMap.length :=
    hext.length_eq
  have hpoint : ∀ (i : ℕ) (hi1 : i < p.chunkMap.length)
      (hi2 : i < (Planet_UpdateLoop p [] leaves).1.chunkMap.length),
      ExtR p.nextChunk p.chunkMap[i] (Planet_UpdateLoop p [] leaves).1.chunkMap[i] := by
    intro i hi1 hi2
    have h := (List.forall₂_iff_get.mp hext).2 i hi1 hi2
    simpa [List.get_eq_getElem] using h
  have hgetj : (Planet_UpdateLoop p [] leaves).1.chunkMap.get ⟨j, hlen1 ▸ hj⟩ =
      p.chunkMap[j] := by
    rw [List.get_eq_getElem]
    rcases hpoint j hj (hlen1 ▸ hj) with heq | ⟨hinact, _, _⟩
    · exact heq
    · rw [hact] at hinact
      cases hinact
  have hu1 : (Planet_Update p leaves).1 =
      (Planet_RemovePhase (Planet_UpdateLoop p [] leaves).1
        (Planet_UpdateLoop p [] leaves).2.1).1 := rfl
  have hu2 : (Planet_Update p leaves).2.2 =
      (Planet_RemovePhase (Planet_UpdateLoop p [] leaves).1
        (Planet_UpdateLoop p [] leaves).2.1).2 := rfl
  rw [hu1, hu2, hnk, removePhase_spec]
  by_cases hkey : p.chunkMap[j].key ∈ leaves
  · left
    refine ⟨hkey, ?_, ?_⟩
    · show p.chunkMap[j] ∈ List.map (deactivateStale leaves) _
      refine List.mem_map.mpr ⟨p.chunkMap[j], ?_, ?_⟩
      · rw [← hgetj]
        exact List.get_mem _ _ _
      · rw [deactivateStale, if_neg]
        rintro ⟨_, hnot⟩
        exact hnot hkey
    · show p.chunkMap[j].chunk ∉ staleChunks leaves _
      intro hmem
      obtain ⟨e1, he1, hsome⟩ := List.mem_filterMap.mp hmem
      by_cases hcond : e1.active = true ∧ e1.key ∉ leaves
      · rw [if_pos hcond] at hsome
        injection hsome with hchunkeq
        obtain ⟨i, hi, hie⟩ := List.mem_iff_getElem.mp he1
        have hi1 : i < p.chunkMap.length := hlen1 ▸ hi
        rcases hpoint i hi1 hi with heq | ⟨_, _, hge⟩
        · have hpi : p.chunkMap[i] = e1 := heq.symm.trans hie
          have hacti : p.chunkMap[i].active = true := by rw [hpi]; exact hcond.1
          have hchunks : p.chunkMap[i].chunk = p.chunkMap[j].chunk := by
            rw [hpi, hchunkeq]
          have hij : (⟨i, hi1⟩ : Fin p.chunkMap.length) = ⟨j, hj⟩ :=
            hinj ⟨i, hi1⟩ ⟨j, hj⟩ hacti hact hchunks
          have : p.chunkMap[i] = p.chunkMap[j] := by
            have := Fin.mk.injEq i hi1 j hj ▸ hij
            simp at this
            simp [this]
          rw [hpi] at this
          rw [this] at hcond
          exact hcond.2 hkey
        · rw [hie, hchunkeq] at hge
          have := hfresh p.chunkMap[j] (List.getElem_mem hj) hact
          omega
      · rw [if_neg hcond] at hsome
        cases hsome
  · right
    refine ⟨hkey, ?_, ?_⟩
    · show p.chunkMap[j].chunk ∈ staleChunks leaves _
      refine List.mem_filterMap.mpr ⟨p.chunkMap[j], ?_, ?_⟩
      · rw [← hgetj]
        exact List.get_mem _ _ _
      · rw [if_pos ⟨hact, hkey⟩]
    · intro e1 hmem hact1
      obtain ⟨e2, he2, hde⟩ := List.mem_map.mp hmem
      by_cases hcond : e2.active = true ∧ e2.key ∉ leaves
      · rw [deactivateStale, if_pos hcond] at hde
        rw [← hde] at hact1
        cases hact1
      · rw [deactivateStale, if_neg hcond] at hde
        rw [← hde] at hact1 ⊢
        have hkey1 : e2.key ∈ leaves := by
          rw [not_and_or, not_not] at hcond
          rcases hcond with hna | hk
          · exact absurd hact1 hna
          · exact hk
        obtain ⟨i, hi, hie⟩ := List.mem_iff_getElem.mp he2
        have hi1 : i < p.chunkMap.length := hlen1 ▸ hi
        intro hchunkeq
        rcases hpoint i hi1 hi with heq | ⟨_, _, hge⟩
        · have hpi : p.chunkMap[i] = e2 := heq.symm.trans hie
          have hacti : p.chunkMap[i].active = true := by rw [hpi]; exact hact1
          have hchunks : p.chunkMap[i].chunk = p.chunkMap[j].chunk := by
            rw [hpi, hchunkeq]
          have hij : (⟨i, hi1⟩ : Fin p.chunkMap.length) = ⟨j, hj⟩ :=
            hinj ⟨i, hi1⟩ ⟨j, hj⟩ hacti hact hchunks
          have hpij : p.chunkMap[i] = p.chunkMap[j] := by
            have := Fin.mk.injEq i hi1 j hj ▸ hij
            simp at this
            simp [this]
          rw [hpi] at hpij
          rw [hpij] at hkey1
          exact hkey hkey1
        · rw [hie, hchunkeq] at hge
          have := hfresh p.chunkMap[j] (List.getElem_mem hj) hact
          omega

end PlanetRenderer

namespace PlanetRenderer

/-- C2 witness: planet with active chunks 1 (key "a") and 2 (key "b"),
frame requesting only "a": entry "b" (slot 1) falls in the second branch —
chunk 2 is destroyed and no active slot still holds it. -/
theorem planet_update_conservation_witness :
    (("b" : String) ∈ ["a"] ∧
      (⟨"b", 2, true⟩ : PChunkEntry) ∈
        (Planet_Update ⟨[⟨"a", 1, true⟩, ⟨"b", 2, true⟩], 2, 3⟩ ["a"]).1.chunkMap ∧
      (2 : ℕ) ∉ (Planet_Update ⟨[⟨"a", 1, true⟩, ⟨"b", 2, true⟩], 2, 3⟩ ["a"]).2.2) ∨
    (("b" : String) ∉ ["a"] ∧
      (2 : ℕ) ∈ (Planet_Update ⟨[⟨"a", 1, true⟩, ⟨"b", 2, true⟩], 2, 3⟩ ["a"]).2.2 ∧
      ∀ e1 ∈ (Planet_Update ⟨[⟨"a", 1, true⟩, ⟨"b", 2, true⟩], 2, 3⟩ ["a"]).1.chunkMap,
        e1.active = true → e1.chunk ≠ 2) :=
  planet_update_conservation ⟨[⟨"a", 1, true⟩, ⟨"b", 2, true⟩], 2, 3⟩ ["a"] 1
    (by decide) (by decide) (by decide) (by decide) (by decide)

/-- C6: when the chunk table is full (`chunkCount >= MAX_CHUNKS`),
`Planet_AddChunk` prints its capacity diagnostic (the `true` component) and
returns the planet untouched (map and count unchanged), and `Planet_Update`
degrades by omitting the new patches: the resulting chunk map is just the old
map with stale entries deactivated — no entry is overwritten and every still
requested chunk survives unchanged. -/
theorem planet_capacity_degradation :
    (∀ (p : CPlanet) (key : String) (chunk : ℕ),
      (MAX_CHUNKS : ℤ) ≤ p.chunkCount → Planet_AddChunk p key chunk = (p, true)) ∧
    (∀ (p : CPlanet) (leaves : List String),
      (MAX_CHUNKS : ℤ) ≤ p.chunkCount → leaves.length ≤ MAX_CHUNKS →
      (Planet_Update p leaves).1.chunkMap = p.chunkMap.map (deactivateStale leaves) ∧
      ∀ e ∈ p.chunkMap, e.active = true → e.key ∈ leaves →
        e ∈ (Planet_Update p leaves).1.chunkMap) := by
  constructor
  · exact addChunk_full
  · intro p leaves hfull hlen
    have hnk : (Planet_UpdateLoop p [] leaves).2.1 = leaves := by
      have h := updateLoop_newKeys leaves p [] (by simpa using hlen)
      simpa using h
    obtain ⟨hmap, _⟩ := updateLoop_full leaves p [] hfull
    have hu1 : (Planet_Update p leaves).1 =
        (Planet_RemovePhase (Planet_UpdateLoop p [] leaves).1
          (Planet_UpdateLoop p [] leaves).2.1).1 := rfl
    rw [hu1, hnk, removePhase_spec]
    constructor
    · show (Planet_UpdateLoop p [] leaves).1.chunkMap.map (deactivateStale leaves) = _
      rw [hmap]
    · intro e he hact hkey
      show e ∈ (Planet_UpdateLoop p [] leaves).1.chunkMap.map (deactivateStale leaves)
      rw [hmap]
      refine List.mem_map.mpr ⟨e, he, ?_⟩
      rw [deactivateStale, if_neg]
      rintro ⟨_, hn⟩
      exact hn hkey

/-- C6 witness: a planet whose `chunkCount` already equals `MAX_CHUNKS`
(16384): `Planet_AddChunk` refuses a new chunk and reports the diagnostic,
and an update requesting keys "x" (present) and "z" (absent) keeps entry "x"
untouched and adds nothing for "z". -/
theorem planet_capacity_degradation_witness :
    Planet_AddChunk ⟨[⟨"x", 5, true⟩], 16384, 9⟩ "y" 7 =
      (⟨[⟨"x", 5, true⟩], 16384, 9⟩, true) ∧
    (Planet_Update ⟨[⟨"x", 5, true⟩], 16384, 9⟩ ["x", "z"]).1.chunkMap =
      [(⟨"x", 5, true⟩ : PChunkEntry)].map (deactivateStale ["x", "z"]) ∧
    (⟨"x", 5, true⟩ : PChunkEntry) ∈
      (Planet_Update ⟨[⟨"x", 5, true⟩], 16384, 9⟩ ["x", "z"]).1.chunkMap :=
  ⟨planet_capacity_degradation.1 ⟨[⟨"x", 5, true⟩], 16384, 9⟩ "y" 7 (by decide),
   (planet_capacity_degradation.2 ⟨[⟨"x", 5, true⟩], 16384, 9⟩ ["x", "z"] (by decide)
     (by decide)).1,
   (planet_capacity_degradation.2 ⟨[⟨"x", 5, true⟩], 16384, 9⟩ ["x", "z"] (by decide)
     (by decide)).2 ⟨"x", 5, true⟩ (by decide) (by decide) (by decide)⟩

end PlanetRenderer
